import Mathlib

/-!
Shallow embedding of `src/parser.go` (package mysqllog), a MySQL slow-query-log
parser.  Go strings are modelled as `List Char` (one entry per rune), Go maps as
association lists, and every Go operation that can panic (slice indexing out of
range) is modelled with `Option`: a `none` result of an embedded function marks
a run-time panic of the source.  The two package-level regular expressions are
embedded as hand-written scanners implementing Go's leftmost-first (Perl-style)
match semantics for those two concrete patterns.
-/

set_option maxRecDepth 10000

/-- Go strings, one list entry per rune. -/
abbrev Str := List Char

/-- Convert a Lean string literal to the `Str` representation. -/
def lit (s : String) : Str := s.toList

/-- `strings.HasSuffix`. -/
def goHasSuffix (s suf : Str) : Bool := suf.isSuffixOf s

/-- The rune set of Go's `unicode.IsSpace` (used by `strings.TrimSpace`). -/
def isSpaceGo (c : Char) : Bool :=
  c = ' ' || c = '\t' || c = '\n' || (c.toNat = 0x0b) || (c.toNat = 0x0c) ||
  c = '\r' || c.toNat = 0x85 || c.toNat = 0xA0 || c.toNat = 0x1680 ||
  (0x2000 ≤ c.toNat && c.toNat ≤ 0x200A) || c.toNat = 0x2028 ||
  c.toNat = 0x2029 || c.toNat = 0x202F || c.toNat = 0x205F || c.toNat = 0x3000

/-- `strings.TrimSpace`. -/
def trimSpace (s : Str) : Str :=
  ((s.dropWhile isSpaceGo).reverse.dropWhile isSpaceGo).reverse

/-- `strings.TrimRight s cutset`: drop trailing runes that belong to `cutset`. -/
def trimRightCut (s cutset : Str) : Str :=
  (s.reverse.dropWhile (fun c => c ∈ cutset)).reverse

/-- Auxiliary loop of `strings.Split` for a non-empty separator: cut the string
around each leftmost non-overlapping occurrence of `sep`.  `acc` is the current
field, reversed.  The `Nat` argument is structural fuel; every step consumes at
least one rune, so fuel `s.length` is never exhausted (the fuel-out branch is
unreachable for the wrapper below). -/
def splitAux (sep : Str) : Nat → Str → Str → List Str
  | _, [], acc => [acc.reverse]
  | 0, s, acc => [acc.reverse ++ s]
  | fuel + 1, c :: rest, acc =>
    if sep.isPrefixOf (c :: rest) then
      acc.reverse :: splitAux sep fuel (rest.drop (sep.length - 1)) []
    else
      splitAux sep fuel rest (c :: acc)

/-- `strings.Split` (only ever called with a non-empty separator in the source;
for an empty separator Go would explode the string into runes, a case the
source never exercises and that we map to the whole string). -/
def goSplit (s sep : Str) : List Str :=
  if sep = [] then [s] else splitAux sep s.length s []

/-- Concatenate with `"\n"` separators: `strings.Join lines "\n"`. -/
def joinNL : List Str → Str
  | [] => []
  | [x] => x
  | x :: rest => x ++ '\n' :: joinNL rest

/-! ### Go map operations (association lists, first match wins on lookup) -/

/-- Go map assignment `m[k] = v`: replace the existing binding or append. -/
def mapSet {β : Type} : List (Str × β) → Str → β → List (Str × β)
  | [], k, v => [(k, v)]
  | (k', v') :: rest, k, v =>
    if k' = k then (k, v) :: rest else (k', v') :: mapSet rest k v

/-- Go map read `m[k]` as an `Option`. -/
def mapFind? {β : Type} : List (Str × β) → Str → Option β
  | [], _ => none
  | (k', v') :: rest, k => if k' = k then some v' else mapFind? rest k

/-- Go map read `m[k]` for a `map[string]string`, with the zero value `""`
returned for a missing key. -/
def mapGetStr (m : List (Str × Str)) (k : Str) : Str := (mapFind? m k).getD []

/-- Go `delete(m, k)`. -/
def mapDel {β : Type} (m : List (Str × β)) (k : Str) : List (Str × β) :=
  m.filter (fun e => e.1 ≠ k)

/-! ### strconv -/

/-- `strconv.ParseBool`: the exact accepted literal tokens. -/
def parseBoolGo (s : Str) : Option Bool :=
  if s = lit "1" || s = lit "t" || s = lit "T" || s = lit "TRUE" ||
     s = lit "true" || s = lit "True" then some true
  else if s = lit "0" || s = lit "f" || s = lit "F" || s = lit "FALSE" ||
     s = lit "false" || s = lit "False" then some false
  else none

/-- Digits of a base-10 number to a natural number (little helper). -/
def digitsToNat (ds : Str) : Nat :=
  ds.foldl (fun n c => 10 * n + (c.toNat - '0'.toNat)) 0

/-- `strconv.ParseInt s 10 64`: optional sign, at least one ASCII digit, value
within the `int64` range; anything else is an error (`none`). -/
def parseInt64 (s : Str) : Option Int :=
  let (neg, ds) : Bool × Str :=
    match s with
    | '+' :: rest => (false, rest)
    | '-' :: rest => (true, rest)
    | other => (false, other)
  if ds = [] || ¬ ds.all (fun c => c.isDigit) then none
  else
    let v : Int := (if neg then -1 else 1) * (digitsToNat ds : Int)
    if v < -(2 ^ 63) || v > 2 ^ 63 - 1 then none else some v

/-- The value of a successfully parsed `strconv.ParseFloat` input.  Float64
rounding and range overflow are not modelled: the finite case carries the exact
rational value of the decimal literal (no claim depends on the bit pattern). -/
inductive GoFloat : Type
  | finite (q : ℚ)
  | inf (neg : Bool)
  | nan
deriving DecidableEq, Repr

/-- `strconv.ParseFloat s 64`, decimal forms: optional sign, digits with an
optional fraction part (at least one digit overall), an optional exponent, and
the case-insensitive special forms `inf` / `infinity` (optionally signed) and
`nan`.  Go's hexadecimal floats and digit-separating underscores never occur in
slow-log input and are not modelled. -/
def parseFloatGo (s : Str) : Option GoFloat :=
  let lower := s.map Char.toLower
  if lower = lit "nan" then some GoFloat.nan
  else
    let (neg, body) : Bool × Str :=
      match s with
      | '+' :: rest => (false, rest)
      | '-' :: rest => (true, rest)
      | other => (false, other)
    let lowerBody := body.map Char.toLower
    if lowerBody = lit "inf" || lowerBody = lit "infinity" then
      some (GoFloat.inf neg)
    else
      let intPart := body.takeWhile Char.isDigit
      let rest1 := body.drop intPart.length
      let (fracPart, rest2) : Str × Str :=
        match rest1 with
        | '.' :: r => (r.takeWhile Char.isDigit, r.drop (r.takeWhile Char.isDigit).length)
        | other => ([], other)
      if intPart ++ fracPart = [] then none
      else
        let mantissa : Int :=
          (if neg then -1 else 1) * (digitsToNat (intPart ++ fracPart) : Int)
        match rest2 with
        | [] =>
          some (GoFloat.finite ((mantissa : ℚ) / (10 : ℚ) ^ fracPart.length))
        | e :: r =>
          if e = 'e' || e = 'E' then
            let (eNeg, eds) : Bool × Str :=
              match r with
              | '+' :: rr => (false, rr)
              | '-' :: rr => (true, rr)
              | other => (false, other)
            if eds = [] || ¬ eds.all Char.isDigit then none
            else
              let ex : Int := (if eNeg then -1 else 1) * (digitsToNat eds : Int)
              some (GoFloat.finite
                ((mantissa : ℚ) / (10 : ℚ) ^ fracPart.length * (10 : ℚ) ^ ex))
          else none

/-! ### time.Unix(n, 0).Format("2006-01-02 15:04:05")

Embedded with a fixed UTC offset.  The source formats in the runtime's local
time zone; the spec itself flags this zone dependence as runtime-determined, so
the embedding fixes the zero offset. -/

/-- Civil date from days since the Unix epoch (standard era-based algorithm,
matching Go's absolute-date computation). -/
def civilFromDays (z0 : Int) : Int × Nat × Nat :=
  let z := z0 + 719468
  let era : Int := z.fdiv 146097
  let doe : Nat := (z - era * 146097).toNat
  let yoe : Nat := (doe - doe / 1460 + doe / 36524 - doe / 146096) / 365
  let doy : Nat := doe - (365 * yoe + yoe / 4 - yoe / 100)
  let mp : Nat := (5 * doy + 2) / 153
  let d : Nat := doy - (153 * mp + 2) / 5 + 1
  let m : Nat := if mp < 10 then mp + 3 else mp - 9
  let y : Int := (yoe : Int) + era * 400 + (if m ≤ 2 then 1 else 0)
  (y, m, d)

/-- Zero-pad the decimal form of `n` to at least `w` digits. -/
def padNat (w : Nat) (n : Nat) : Str :=
  let ds := (Nat.toDigits 10 n)
  (List.replicate (w - ds.length) '0') ++ ds

/-- `time.Unix n 0 |>.Format "2006-01-02 15:04:05"` at UTC offset. -/
def formatEpoch (n : Int) : Str :=
  let days := n.fdiv 86400
  let sod := (n - days * 86400).toNat
  let (y, m, d) := civilFromDays days
  let yStr := if y < 0 then '-' :: padNat 4 (-y).toNat else padNat 4 y.toNat
  yStr ++ '-' :: padNat 2 m ++ '-' :: padNat 2 d ++
  ' ' :: padNat 2 (sod / 3600) ++ ':' :: padNat 2 (sod % 3600 / 60) ++
  ':' :: padNat 2 (sod % 60)

/-! ### The two package-level regular expressions

`userHostAttributesRe = \b(User@Host: \S+\[\w+\]+ @ (?:)(\w+)? \[\S*\])|(Id:.+)`
`attributesRe = \b([\w_]+:\s+[^\s]+)\b`

Both are embedded as deterministic scanners reproducing Go's leftmost-first
(Perl-style) semantics for these concrete patterns: each `tryX` function
attempts a match at one position and returns the match length, and the
`findAllAux` driver reproduces `FindAllString`'s scan (leftmost match, resume
after the end of each match, advance one rune otherwise). -/

/-- `\w` of Go's regexp package: `[0-9A-Za-z_]`. -/
def isWordChar (c : Char) : Bool :=
  ('0' ≤ c && c ≤ '9') || ('A' ≤ c && c ≤ 'Z') || ('a' ≤ c && c ≤ 'z') || c = '_'

/-- `\s` of Go's regexp package: `[\t\n\f\r ]`. -/
def isReSpace (c : Char) : Bool :=
  c = '\t' || c = '\n' || c.toNat = 0x0c || c = '\r' || c = ' '

/-- Word-character test through an optional rune (`none` = out of the text,
never a word character). -/
def isWordOpt : Option Char → Bool
  | some c => isWordChar c
  | none => false

/-- Backtracking of the greedy `[^\s]+` against its trailing `\b`: `val` is the
maximal non-space run; pick the largest length `k ≥ 1` with a word boundary
after the `k`-th rune (the rune that follows the run is never a word
character, so `val.get? k` answers for every candidate `k`). -/
def boundaryShrink (val : Str) : Nat → Option Nat
  | 0 => none
  | k + 1 =>
    if isWordOpt (val.get? k) ≠ isWordOpt (val.get? (k + 1)) then some (k + 1)
    else boundaryShrink val k

/-- One match attempt of `attributesRe` at the current position (`prev` is the
rune just before the position, for the leading `\b`). -/
def tryAttr (prev : Option Char) (s : Str) : Option Nat :=
  match s with
  | [] => none
  | c :: _ =>
    if isWordChar c && ! isWordOpt prev then
      let name := s.takeWhile isWordChar
      match s.drop name.length with
      | ':' :: r2 =>
        let ws := r2.takeWhile isReSpace
        if ws = [] then none
        else
          let val := (r2.drop ws.length).takeWhile (fun c => ! isReSpace c)
          if val = [] then none
          else
            match boundaryShrink val val.length with
            | some k => some (name.length + 1 + ws.length + k)
            | none => none
      | _ => none
    else none

/-- Index of the last occurrence of `c` in `s`. -/
def lastIdxOf (s : Str) (c : Char) : Option Nat :=
  match s.reverse.findIdx? (fun x => x = c) with
  | some i => some (s.length - 1 - i)
  | none => none

/-- One match attempt of the first alternative of `userHostAttributesRe`,
`\b(User@Host: \S+\[\w+\]+ @ (?:)(\w+)? \[\S*\])`.  The greedy `\S+\[\w+\]+`
must cover the whole maximal non-space run after the literal (the next pattern
rune is a space), which forces `\]+` to be the run's maximal trailing `]` run,
`\w+` the maximal word run before it, preceded by `[` with at least one rune
before it; the optional `(\w+)?` is forced to the maximal word run, and `\S*`
stops before the last `]` of its run. -/
def tryAlt1 (prev : Option Char) (s : Str) : Option Nat :=
  if ! isWordOpt prev && (lit "User@Host: ").isPrefixOf s then
    let r1 := s.drop 11
    let run := r1.takeWhile (fun c => ! isReSpace c)
    let rv := run.reverse
    let t := (rv.takeWhile (fun c => c = ']')).length
    let rv2 := rv.drop t
    let u := (rv2.takeWhile isWordChar).length
    let rv3 := rv2.drop u
    if 1 ≤ t && 1 ≤ u && rv3.head? = some '[' && 2 ≤ rv3.length then
      let r2 := r1.drop run.length
      if r2.take 3 = lit " @ " then
        let r3 := r2.drop 3
        let z := (r3.takeWhile isWordChar).length
        if (r3.drop z).take 2 = lit " [" then
          let srun := (r3.drop (z + 2)).takeWhile (fun c => ! isReSpace c)
          match lastIdxOf srun ']' with
          | some j => some (11 + run.length + 3 + z + 2 + (j + 1))
          | none => none
        else none
      else none
    else none
  else none

/-- One match attempt of the second alternative, `(Id:.+)` (no word boundary;
`.` excludes the newline). -/
def tryAlt2 (s : Str) : Option Nat :=
  if (lit "Id:").isPrefixOf s then
    let k := ((s.drop 3).takeWhile (fun c => c ≠ '\n')).length
    if 1 ≤ k then some (3 + k) else none
  else none

/-- One match attempt of `userHostAttributesRe`: first alternative preferred. -/
def tryUserHost (prev : Option Char) (s : Str) : Option Nat :=
  match tryAlt1 prev s with
  | some n => some n
  | none => tryAlt2 s

/-- `FindAllString(re, -1)` driver: scan left to right, emit each leftmost
match and resume after its end (advancing one rune after an empty match, as Go
does — the two embedded patterns never match empty).  The `Nat` argument is
structural fuel; every step consumes at least one rune, so fuel `s.length` is
never exhausted in the wrappers below. -/
def findAllAux (tm : Option Char → Str → Option Nat) : Nat → Option Char → Str → List Str
  | _, _, [] => []
  | 0, _, _ => []
  | fuel + 1, prev, c :: rest =>
    match tm prev (c :: rest) with
    | some (n + 1) =>
      (c :: rest).take (n + 1) ::
        findAllAux tm fuel ((c :: rest).get? n) ((c :: rest).drop (n + 1))
    | some 0 => [] :: findAllAux tm fuel (some c) rest
    | none => findAllAux tm fuel (some c) rest

/-- `attributesRe.FindAllString(line, -1)`. -/
def findAllAttrs (s : Str) : List Str := findAllAux tryAttr s.length none s

/-- `userHostAttributesRe.FindAllString(line, -1)`. -/
def findAllUserHost (s : Str) : List Str := findAllAux tryUserHost s.length none s

/-! ### Data model and the entry parser -/

/-- The dynamically-typed value of a `LogEvent` entry (`interface{}` in the
source: string, bool, int64 or float64). -/
inductive GoVal : Type
  | str (s : Str)
  | bool (b : Bool)
  | int (n : Int)
  | float (f : GoFloat)
deriving DecidableEq, Repr

/-- `LogEvent`: a `map[string]interface{}`, as an association list. -/
abbrev LogEvent := List (Str × GoVal)

/-- The four attribute kinds of the static attribute-type table. -/
inductive AttrType : Type
  | string
  | bool
  | float
  | int
deriving DecidableEq, Repr

/-- Modelled from the spec: the static attribute-type table `attributeTypes`
(its defining Go file is not under `src/`; only `parser.go`, which consults it,
is).  The spec pins `Query_time` as float and `Rows_examined` as int64, lists
`Lock_time` and `Rows_sent` alongside them in the standard header, and states
that every name outside the table is unrecognized (Go's map lookup miss /
`attributeTypeUnknown` zero value is modelled as `none`, matching the spec's
"unrecognized names ... are silently dropped"). -/
def attributeTypes (name : Str) : Option AttrType :=
  if name = lit "Query_time" then some AttrType.float
  else if name = lit "Lock_time" then some AttrType.float
  else if name = lit "Rows_sent" then some AttrType.int
  else if name = lit "Rows_examined" then some AttrType.int
  else none

/-- Body of the `range` loop of `parseUserHostLine` for one regexp match.
`parts[1]`, `userHostParts[1]` and `strings.Split(userHostParts[1], "[")[1]`
are the slice accesses that can panic (`none`). -/
def userHostStep (ev : List (Str × Str)) (m : Str) : Option (List (Str × Str)) :=
  match goSplit m (lit ": ") with
  | [] => some ev
  | p0 :: ptail =>
    if p0 = lit "User@Host" then
      match ptail with
      | [] => none
      | p1 :: _ =>
        match goSplit p1 ['@'] with
        | [] => none
        | u0 :: utail =>
          match utail with
          | [] => none
          | u1 :: _ =>
            let user := trimSpace ((goSplit u0 ['[']).headD [])
            let hostParts := goSplit u1 ['[']
            let host := trimSpace (hostParts.headD [])
            match hostParts.get? 1 with
            | none => none
            | some ipRaw =>
              let ip := trimRightCut (trimSpace ipRaw) [']']
              let ev3 :=
                mapSet (mapSet (mapSet ev (lit "User") user) (lit "Host") host)
                  (lit "IP") ip
              let ev4 :=
                if (mapGetStr ev3 (lit "IP")).length = 0 then
                  mapDel ev3 (lit "IP")
                else ev3
              let ev5 :=
                if (mapGetStr ev4 (lit "Host")).length = 0 then
                  if 0 < (mapGetStr ev4 (lit "IP")).length then
                    mapSet ev4 (lit "Host") (mapGetStr ev4 (lit "IP"))
                  else mapDel ev4 (lit "Host")
                else ev4
              some ev5
    else some ev

/-- `parseUserHostLine`. -/
def parseUserHostLine (line : Str) : Option (List (Str × Str)) :=
  (findAllUserHost line).foldlM userHostStep []

/-- Body of the attribute loop of `parseEntry` for one `attributesRe` match:
coerce `parts[1]` according to the attribute type of `parts[0]`; a failed
coercion or an unrecognized name stores nothing (`attributeValue == nil`). -/
def attrStep (ev : LogEvent) (m : Str) : Option LogEvent :=
  match goSplit m (lit ": ") with
  | [] => some ev
  | p0 :: ptail =>
    match attributeTypes p0 with
    | none => some ev
    | some AttrType.string =>
      match ptail with
      | [] => none
      | p1 :: _ => some (mapSet ev p0 (GoVal.str p1))
    | some AttrType.bool =>
      match ptail with
      | [] => none
      | p1 :: _ =>
        match parseBoolGo p1 with
        | some b => some (mapSet ev p0 (GoVal.bool b))
        | none => some ev
    | some AttrType.float =>
      match ptail with
      | [] => none
      | p1 :: _ =>
        match parseFloatGo p1 with
        | some f => some (mapSet ev p0 (GoVal.float f))
        | none => some ev
    | some AttrType.int =>
      match ptail with
      | [] => none
      | p1 :: _ =>
        match parseInt64 p1 with
        | some n => some (mapSet ev p0 (GoVal.int n))
        | none => some ev

/-- The `attributesRe` processing of one header comment line. -/
def processAttrLine (ev : LogEvent) (line : Str) : Option LogEvent :=
  (findAllAttrs line).foldlM attrStep ev

/-- Processing of one `#` header line inside `parseEntry`'s first loop: the
`# User@Host` branch merges the string fields of `parseUserHostLine`; every
other comment line goes through the attribute extraction. -/
def processHeaderLine (ev : LogEvent) (line : Str) : Option LogEvent :=
  if (lit "# User@Host").isPrefixOf line then do
    let fields ← parseUserHostLine line
    pure (fields.foldl (fun e kv => mapSet e kv.1 (GoVal.str kv.2)) ev)
  else processAttrLine ev line

/-- First loop of `parseEntry` (`for i, line = range lines`): skip empty lines,
process `#` lines, break at the first other line.  Returns the event so far and
`lines.drop i` for the Go break index `i`; when the loop runs to completion Go
leaves `i` at the last index, so the suffix keeps the final element. -/
def headerPhase (ev : LogEvent) : List Str → Option (LogEvent × List Str)
  | [] => some (ev, [])
  | [l] =>
    if l = [] then some (ev, [l])
    else if l.head? ≠ some '#' then some (ev, [l])
    else do
      let ev' ← processHeaderLine ev l
      pure (ev', [l])
  | l :: l2 :: rest =>
    if l = [] then headerPhase ev (l2 :: rest)
    else if l.head? ≠ some '#' then some (ev, l :: l2 :: rest)
    else do
      let ev' ← processHeaderLine ev l
      headerPhase ev' (l2 :: rest)

/-- Second loop of `parseEntry`: consume `use <db>` and `SET ...` context
lines (recording `Database` and `Timestamp`), stop at the first other line. -/
def skipPhase (ev : LogEvent) : List Str → Option (LogEvent × List Str)
  | [] => some (ev, [])
  | l :: rest =>
    if (lit "use ").isPrefixOf l then
      match (goSplit l [' ']).get? 1 with
      | none => none
      | some tok =>
        skipPhase (mapSet ev (lit "Database") (GoVal.str (trimRightCut tok (lit ";\n")))) rest
    else if (lit "SET ").isPrefixOf l then
      if (lit "SET timestamp=").isPrefixOf l then
        match (goSplit l ['=']).get? 1 with
        | none => none
        | some tok =>
          let raw := trimRightCut tok (lit ";\n")
          let ev1 := mapSet ev (lit "Timestamp") (GoVal.str raw)
          let ev2 :=
            match parseInt64 raw with
            | some n => mapSet ev1 (lit "Timestamp") (GoVal.str (formatEpoch n))
            | none => ev1
          skipPhase ev2 rest
      else skipPhase ev rest
    else some (ev, l :: rest)

/-- The log-rotation marker suffix tested by `parseEntry`'s third loop
(`strings.HasSuffix(lines[i], "started with:\n")` — note the trailing
newline). -/
def rotationMarker : Str := lit "started with:\n"

/-- `parseEntry`: header phase, context phase, then the statement body (lines
up to the first one carrying the rotation-marker suffix, joined with newlines
and trimmed). -/
def parseEntry (lines : List Str) : Option LogEvent := do
  let (ev1, rest1) ← headerPhase [] lines
  let (ev2, rest2) ← skipPhase ev1 rest1
  let queryLines := rest2.takeWhile (fun l => ! goHasSuffix l rotationMarker)
  pure (mapSet ev2 (lit "Statement") (GoVal.str (trimSpace (joinNL queryLines))))

/-! ### The line-consuming state machine -/

/-- `Parser`: the two mode flags and the pending-line buffer (Go zero value:
both flags false, empty buffer). -/
structure Parser : Type where
  inHeader : Bool
  inQuery : Bool
  lines : List Str
deriving DecidableEq, Repr

/-- A freshly created `&Parser{}`. -/
def initialParser : Parser := ⟨false, false, []⟩

/-- `(*Parser).ConsumeLine`: returns the updated parser and the emitted event,
`none` overall marking a panic inside `parseEntry`.  The buffer reset
`p.lines = append(p.lines[:0], line)` is modelled by its value `[line]`. -/
def Parser.ConsumeLine (p : Parser) (line : Str) : Option (Parser × Option LogEvent) :=
  if line = [] then
    if p.inQuery then do
      let event ← parseEntry p.lines
      pure (⟨true, false, [line]⟩, some event)
    else pure (p, none)
  else if line.head? = some '#' then
    if p.inQuery then do
      let event ← parseEntry p.lines
      pure (⟨true, false, [line]⟩, some event)
    else pure (⟨true, p.inQuery, p.lines ++ [line]⟩, none)
  else if p.inHeader then
    pure (⟨false, true, p.lines ++ [line]⟩, none)
  else if p.inQuery then
    pure (⟨p.inHeader, p.inQuery, p.lines ++ [line]⟩, none)
  else pure (p, none)

/-- `(*Parser).Flush`: parse the pending block when in the query state; only
the buffer is truncated, both flags are left as they are. -/
def Parser.Flush (p : Parser) : Option (Parser × Option LogEvent) :=
  if !p.inQuery then pure (p, none)
  else do
    let event ← parseEntry p.lines
    pure (⟨p.inHeader, p.inQuery, []⟩, some event)

/-- Feed a list of lines through `ConsumeLine`, collecting each call's output
(`none` overall if any call panics). -/
def runConsume (p : Parser) : List Str → Option (Parser × List (Option LogEvent))
  | [] => some (p, [])
  | l :: rest => do
    let (p1, e) ← p.ConsumeLine l
    let (p2, es) ← runConsume p1 rest
    pure (p2, e :: es)

/-- Parser states reachable from the fresh parser by successful (non-panicking)
`ConsumeLine` and `Flush` calls. -/
inductive ReachableParser : Parser → Prop
  | init : ReachableParser initialParser
  | consume (p : Parser) (l : Str) (p' : Parser) (e : Option LogEvent) :
      ReachableParser p → p.ConsumeLine l = some (p', e) → ReachableParser p'
  | flush (p p' : Parser) (e : Option LogEvent) :
      ReachableParser p → p.Flush = some (p', e) → ReachableParser p'

/-- A stored value is of the kind an attribute type declares. -/
def valMatchesType : AttrType → GoVal → Bool
  | AttrType.string, GoVal.str _ => true
  | AttrType.bool, GoVal.bool _ => true
  | AttrType.float, GoVal.float _ => true
  | AttrType.int, GoVal.int _ => true
  | _, _ => false

/-- Every key of the event is a recognized attribute name and its value is of
the declared kind (so no raw-string fallback). -/
def WellTypedEvent (ev : LogEvent) : Prop :=
  ∀ k v, mapFind? ev k = some v →
    ∃ τ, attributeTypes k = some τ ∧ valMatchesType τ v = true

/-- The coercion of `parseEntry`'s attribute switch succeeds for this
name/value pair: the name is in the table and the value parses under the
declared type (a string needs no parse). -/
def coerceOk (name val : Str) : Bool :=
  match attributeTypes name with
  | none => false
  | some AttrType.string => true
  | some AttrType.bool => (parseBoolGo val).isSome
  | some AttrType.float => (parseFloatGo val).isSome
  | some AttrType.int => (parseInt64 val).isSome

/-! ### Helper lemmas -/

theorem mapFind?_mapSet_self {β : Type} (m : List (Str × β)) (k : Str) (v : β) :
    mapFind? (mapSet m k v) k = some v := by
  induction m with
  | nil => simp [mapSet, mapFind?]
  | cons e rest ih =>
    obtain ⟨k', v'⟩ := e
    by_cases h : k' = k
    · simp [mapSet, mapFind?, h]
    · simp [mapSet, mapFind?, h, ih]

theorem mapFind?_mapSet_of_ne {β : Type} (m : List (Str × β)) (k k' : Str) (v : β)
    (h : k' ≠ k) : mapFind? (mapSet m k v) k' = mapFind? m k' := by
  have h2 : ¬ k = k' := fun hh => h hh.symm
  induction m with
  | nil => simp [mapSet, mapFind?, h2]
  | cons e rest ih =>
    obtain ⟨k0, v0⟩ := e
    by_cases h0 : k0 = k
    · subst h0
      simp [mapSet, mapFind?, h2]
    · simp only [mapSet, if_neg h0, mapFind?]
      by_cases h1 : k0 = k'
      · simp [h1]
      · simp [h1, ih]

theorem takeWhile_eq_self_of_all {α : Type} (p : α → Bool) (l : List α)
    (h : ∀ x ∈ l, p x = true) : l.takeWhile p = l := by
  induction l with
  | nil => rfl
  | cons a t ih =>
    simp only [List.takeWhile, h a (List.mem_cons_self a t)]
    exact congrArg (a :: ·) (ih fun x hx => h x (List.mem_cons_of_mem a hx))

theorem takeWhile_middle {α : Type} (p : α → Bool) (pre : List α) (m : α)
    (post : List α) (h1 : ∀ l ∈ pre, p l = true) (h2 : p m = false) :
    (pre ++ m :: post).takeWhile p = pre := by
  induction pre with
  | nil => simp [List.takeWhile, h2]
  | cons a t ih =>
    simp only [List.cons_append, List.takeWhile, h1 a (List.mem_cons_self a t)]
    exact congrArg (a :: ·) (ih fun x hx => h1 x (List.mem_cons_of_mem a hx))

theorem dropWhile_eq_self_of_head? {α : Type} (p : α → Bool) (l : List α)
    (h : ∀ c, l.head? = some c → p c = false) : l.dropWhile p = l := by
  cases l with
  | nil => rfl
  | cons a t => simp [List.dropWhile, h a rfl]

/-- Generic invariant preservation through `List.foldlM` over `Option`. -/
theorem foldlM_option_inv {α β : Type} (P : β → Prop) (f : β → α → Option β)
    (hf : ∀ b a b', P b → f b a = some b' → P b') :
    ∀ (l : List α) (b b' : β), P b → List.foldlM f b l = some b' → P b'
  | [], b, b', hb, hfold => by
    simp only [List.foldlM] at hfold
    cases hfold
    exact hb
  | a :: t, b, b', hb, hfold => by
    simp only [List.foldlM] at hfold
    cases h1 : f b a with
    | none => rw [h1] at hfold; cases hfold
    | some b1 =>
      rw [h1] at hfold
      exact foldlM_option_inv P f hf t b1 b' (hf b a b1 hb h1) hfold

/-! ### Claim theorems -/

/-- C1 (code bug): `ConsumeLine` is claimed never to raise, yet a reachable
parser state holding the malformed header `# User@Host: a@b@c[d] @ h [i]`
panics when the blank line closes the block: the header matches the User@Host
regexp, `strings.Split(parts[1], "@")` yields `["a", "b", "c[d] ", " h [i]"]`,
and `strings.Split("b", "[")[1]` is an index out of range.  The first conjunct
shows the state is reached by two successful calls; the second shows the third
call panics (`none`). -/
theorem c1_consume_panics :
    runConsume initialParser [lit "# User@Host: a@b@c[d] @ h [i]", lit "x"] =
      some (⟨false, true, [lit "# User@Host: a@b@c[d] @ h [i]", lit "x"]⟩,
        [none, none]) ∧
    Parser.ConsumeLine
      ⟨false, true, [lit "# User@Host: a@b@c[d] @ h [i]", lit "x"]⟩ [] = none :=
  ⟨rfl, rfl⟩

/-- C3 (counterexample): on a freshly created parser both mode flags are
`false`, so the very first non-empty line without a `#` prefix is discarded —
the parser is returned unchanged (empty buffer, not in the query state) and
nothing is buffered, contrary to the claimed buffer-and-switch behavior. -/
theorem c3_first_plain_line_dropped :
    initialParser.ConsumeLine (lit "SELECT 1") = some (initialParser, none) ∧
    initialParser.inQuery = false ∧ initialParser.lines = [] :=
  ⟨rfl, rfl, rfl⟩

/-- C3 (amended): a freshly created parser has `inHeader = false`,
`inQuery = false` and an empty buffer; because `inHeader` is false, any first
non-empty line that does not begin with `#` is ignored — not buffered, no state
change, nothing returned — so it contributes to no event.  (A non-comment line
is buffered and switches the parser to the query state only once `inHeader` is
true, i.e. after at least one `#` line.) -/
theorem c3_amended_fresh_state (l : Str) (hne : l ≠ [])
    (hnh : l.head? ≠ some '#') :
    initialParser.inHeader = false ∧ initialParser.inQuery = false ∧
    initialParser.lines = [] ∧
    initialParser.ConsumeLine l = some (initialParser, none) := by
  refine ⟨rfl, rfl, rfl, ?_⟩
  simp only [Parser.ConsumeLine, initialParser, if_neg hne, if_neg hnh]
  rfl

/-- C3 witness: the amended theorem evaluated on the line `SELECT 1`. -/
theorem c3_amended_witness :
    initialParser.inHeader = false ∧ initialParser.inQuery = false ∧
    initialParser.lines = [] ∧
    initialParser.ConsumeLine (lit "SELECT 1") = some (initialParser, none) :=
  c3_amended_fresh_state (lit "SELECT 1") (by decide) (by decide)

/-- C5: parsing a block headed by `# User@Host: root[root] @ localhost []`
yields `User = "root"`, `Host = "localhost"` and no `IP` key; parsing one
headed by `# User@Host: root[root] @  [127.0.0.1]` yields the fallback
`Host = "127.0.0.1"` together with `IP = "127.0.0.1"`. -/
theorem c5_user_host_extraction :
    ((parseEntry [lit "# User@Host: root[root] @ localhost []", lit "SELECT 1;"]).bind
        (fun ev => mapFind? ev (lit "User")) = some (GoVal.str (lit "root"))) ∧
    ((parseEntry [lit "# User@Host: root[root] @ localhost []", lit "SELECT 1;"]).bind
        (fun ev => mapFind? ev (lit "Host")) = some (GoVal.str (lit "localhost"))) ∧
    ((parseEntry [lit "# User@Host: root[root] @ localhost []", lit "SELECT 1;"]).bind
        (fun ev => mapFind? ev (lit "IP")) = none) ∧
    ((parseEntry [lit "# User@Host: root[root] @  [127.0.0.1]", lit "SELECT 1;"]).bind
        (fun ev => mapFind? ev (lit "Host")) = some (GoVal.str (lit "127.0.0.1"))) ∧
    ((parseEntry [lit "# User@Host: root[root] @  [127.0.0.1]", lit "SELECT 1;"]).bind
        (fun ev => mapFind? ev (lit "IP")) = some (GoVal.str (lit "127.0.0.1"))) ∧
    ((parseEntry [lit "# User@Host: root[root] @  [127.0.0.1]", lit "SELECT 1;"]).bind
        (fun ev => mapFind? ev (lit "User")) = some (GoVal.str (lit "root"))) :=
  ⟨rfl, rfl, rfl, rfl, rfl, rfl⟩

/-- C10: `Flush` truncates only the buffer and leaves both mode flags alone;
after a `Flush` that returned an event the parser is hence still in the query
state, so an immediately following second `Flush` again returns a (non-nil)
event, whose `Statement` is the empty string. -/
theorem c10_flush_frame (p p' : Parser) (e : LogEvent)
    (h : p.Flush = some (p', some e)) :
    p'.inHeader = p.inHeader ∧ p'.inQuery = true ∧ p.inQuery = true ∧
    p'.lines = [] ∧
    ∃ e2, p'.Flush = some (⟨p.inHeader, true, []⟩, some e2) ∧
      mapFind? e2 (lit "Statement") = some (GoVal.str []) := by
  simp only [Parser.Flush] at h
  by_cases hq : p.inQuery
  · rw [hq] at h
    simp only [Bool.not_true, Bool.false_eq_true, if_false] at h
    cases hpe : parseEntry p.lines with
    | none => rw [hpe] at h; cases h
    | some ev =>
      rw [hpe] at h
      simp only [Option.pure_def, Option.bind_eq_bind, Option.some_bind,
        Option.some.injEq, Prod.mk.injEq] at h
      obtain ⟨hp', he⟩ := h
      subst hp'
      refine ⟨rfl, rfl, hq, rfl, [(lit "Statement", GoVal.str [])], ?_, rfl⟩
      simp only [Parser.Flush, Bool.not_true, Bool.false_eq_true, if_false]
      rfl
  · rw [Bool.not_eq_true] at hq
    rw [hq] at h
    simp at h

/-- C10 witness: a query-state parser holding one buffered line. -/
theorem c10_flush_frame_witness :
    Parser.inHeader (⟨false, true, []⟩ : Parser) = Parser.inHeader
        (⟨false, true, [lit "SELECT 1"]⟩ : Parser) ∧
    Parser.inQuery (⟨false, true, []⟩ : Parser) = true ∧
    Parser.inQuery (⟨false, true, [lit "SELECT 1"]⟩ : Parser) = true ∧
    Parser.lines (⟨false, true, []⟩ : Parser) = [] ∧
    ∃ e2, Parser.Flush (⟨false, true, []⟩ : Parser) =
        some (⟨false, true, []⟩, some e2) ∧
      mapFind? e2 (lit "Statement") = some (GoVal.str []) :=
  c10_flush_frame ⟨false, true, [lit "SELECT 1"]⟩ ⟨false, true, []⟩
    [(lit "Statement", GoVal.str (lit "SELECT 1"))] (by rfl)

/-- A successful `ConsumeLine` step preserves "not both flags true". -/
theorem consume_not_both (p : Parser) (l : Str) (p' : Parser) (e : Option LogEvent)
    (hc : p.ConsumeLine l = some (p', e))
    (hp : ¬(p.inHeader = true ∧ p.inQuery = true)) :
    ¬(p'.inHeader = true ∧ p'.inQuery = true) := by
  simp only [Parser.ConsumeLine, Option.pure_def] at hc
  split_ifs at hc with h1 h2 h3 h4 h5 h6
  · cases hpe : parseEntry p.lines with
    | none => rw [hpe] at hc; simp at hc
    | some ev =>
      rw [hpe] at hc
      simp only [Option.bind_eq_bind, Option.some_bind, Option.some.injEq,
        Prod.mk.injEq] at hc
      obtain ⟨h', -⟩ := hc
      subst h'
      simp
  · simp only [Option.some.injEq, Prod.mk.injEq] at hc
    obtain ⟨h', -⟩ := hc
    subst h'
    exact hp
  · cases hpe : parseEntry p.lines with
    | none => rw [hpe] at hc; simp at hc
    | some ev =>
      rw [hpe] at hc
      simp only [Option.bind_eq_bind, Option.some_bind, Option.some.injEq,
        Prod.mk.injEq] at hc
      obtain ⟨h', -⟩ := hc
      subst h'
      simp
  · simp only [Option.some.injEq, Prod.mk.injEq] at hc
    obtain ⟨h', -⟩ := hc
    subst h'
    simp only [Bool.not_eq_true] at h4
    simp [h4]
  · simp only [Option.some.injEq, Prod.mk.injEq] at hc
    obtain ⟨h', -⟩ := hc
    subst h'
    simp
  · simp only [Option.some.injEq, Prod.mk.injEq] at hc
    obtain ⟨h', -⟩ := hc
    subst h'
    exact hp
  · simp only [Option.some.injEq, Prod.mk.injEq] at hc
    obtain ⟨h', -⟩ := hc
    subst h'
    exact hp

/-- A successful `Flush` preserves "not both flags true". -/
theorem flush_not_both (p p' : Parser) (e : Option LogEvent)
    (hc : p.Flush = some (p', e))
    (hp : ¬(p.inHeader = true ∧ p.inQuery = true)) :
    ¬(p'.inHeader = true ∧ p'.inQuery = true) := by
  simp only [Parser.Flush, Option.pure_def] at hc
  by_cases hq : p.inQuery
  · rw [hq] at hc
    simp only [Bool.not_true, Bool.false_eq_true, if_false] at hc
    cases hpe : parseEntry p.lines with
    | none => rw [hpe] at hc; simp at hc
    | some ev =>
      rw [hpe] at hc
      simp only [Option.bind_eq_bind, Option.some_bind, Option.some.injEq,
        Prod.mk.injEq] at hc
      obtain ⟨h', -⟩ := hc
      subst h'
      intro hx
      exact hp ⟨hx.1, hq⟩
  · rw [Bool.not_eq_true] at hq
    rw [hq] at hc
    simp only [Bool.not_false, if_true, Option.some.injEq] at hc
    have h1 : p = p' := congrArg Prod.fst hc
    rw [← h1]
    exact hp

/-- C9: in every parser state reachable from the fresh parser by any sequence
of successful `ConsumeLine` and `Flush` calls, `inHeader` and `inQuery` are
never both true. -/
theorem c9_flags_invariant (p : Parser) (h : ReachableParser p) :
    ¬(p.inHeader = true ∧ p.inQuery = true) := by
  induction h with
  | init => simp [initialParser]
  | consume q l q' e hr hc ih => exact consume_not_both q l q' e hc ih
  | flush q q' e hr hc ih => exact flush_not_both q q' e hc ih

/-- C9 witness: the invariant at the (trivially reachable) initial parser. -/
theorem c9_flags_invariant_witness :
    ¬(initialParser.inHeader = true ∧ initialParser.inQuery = true) :=
  c9_flags_invariant initialParser ReachableParser.init

/-- Shared shape of a successful `parseEntry`: header phase, context phase,
then the rotation-truncated, joined and trimmed statement body. -/
theorem parseEntry_eq (lines : List Str) (ev1 : LogEvent) (rest1 : List Str)
    (ev2 : LogEvent) (rest2 : List Str)
    (hh : headerPhase [] lines = some (ev1, rest1))
    (hs : skipPhase ev1 rest1 = some (ev2, rest2)) :
    parseEntry lines = some (mapSet ev2 (lit "Statement")
      (GoVal.str (trimSpace (joinNL
        (rest2.takeWhile (fun l => ! goHasSuffix l rotationMarker)))))) := by
  simp only [parseEntry, hh, hs, Option.pure_def, Option.bind_eq_bind,
    Option.some_bind]

/-- C2 (counterexample): the source tests the suffix `"started with:\n"` with a
trailing newline, so a body line ending in plain `started with:` is NOT
excluded: it appears in the emitted `Statement`, contrary to the claim (which
would require `Statement = "SELECT 1"` here). -/
theorem c2_marker_without_newline_kept :
    goHasSuffix (lit "x started with:") (lit "started with:") = true ∧
    (parseEntry [lit "#", lit "SELECT 1", lit "x started with:"]).bind
        (fun ev => mapFind? ev (lit "Statement")) =
      some (GoVal.str (lit "SELECT 1\nx started with:")) :=
  ⟨rfl, rfl⟩

/-- C2 (amended): for every block, if some statement-body line ends with the
literal suffix `"started with:\n"` (the marker the source tests, trailing
newline included), then that line and all lines after it in the block are
excluded from the emitted event's `Statement` value. -/
theorem c2_amended_rotation (lines : List Str) (ev1 : LogEvent)
    (rest1 : List Str) (ev2 : LogEvent) (pre : List Str) (m : Str)
    (post : List Str)
    (hh : headerPhase [] lines = some (ev1, rest1))
    (hs : skipPhase ev1 rest1 = some (ev2, pre ++ m :: post))
    (hm : goHasSuffix m rotationMarker = true)
    (hpre : ∀ l ∈ pre, goHasSuffix l rotationMarker = false) :
    parseEntry lines =
      some (mapSet ev2 (lit "Statement") (GoVal.str (trimSpace (joinNL pre)))) := by
  rw [parseEntry_eq lines ev1 rest1 ev2 (pre ++ m :: post) hh hs]
  rw [takeWhile_middle (fun l => ! goHasSuffix l rotationMarker) pre m post
    (fun l hl => by simp [hpre l hl]) (by simp [hm])]

/-- C2 witness: a four-line block whose third line carries the marker; only the
line before it reaches the `Statement`. -/
theorem c2_amended_witness :
    parseEntry [lit "#", lit "a", lit "b started with:\n", lit "c"] =
      some (mapSet [] (lit "Statement")
        (GoVal.str (trimSpace (joinNL [lit "a"])))) :=
  c2_amended_rotation [lit "#", lit "a", lit "b started with:\n", lit "c"]
    [] [lit "a", lit "b started with:\n", lit "c"] [] [lit "a"]
    (lit "b started with:\n") [lit "c"] (by rfl) (by rfl) (by rfl) (by decide)

/-- C7: every successfully parsed block has a `Statement` key holding a string
(possibly empty), and when no remaining line carries the rotation marker its
value is exactly the remaining lines after the header and context phases,
joined with newlines and trimmed of leading/trailing whitespace. -/
theorem c7_statement (lines : List Str) (ev : LogEvent)
    (h : parseEntry lines = some ev) :
    (∃ s, mapFind? ev (lit "Statement") = some (GoVal.str s)) ∧
    (∀ (ev1 : LogEvent) (rest1 : List Str) (ev2 : LogEvent) (rest2 : List Str),
      headerPhase [] lines = some (ev1, rest1) →
      skipPhase ev1 rest1 = some (ev2, rest2) →
      (∀ l ∈ rest2, goHasSuffix l rotationMarker = false) →
      mapFind? ev (lit "Statement") =
        some (GoVal.str (trimSpace (joinNL rest2)))) := by
  cases hh : headerPhase [] lines with
  | none => rw [parseEntry, hh] at h; cases h
  | some r1 =>
    obtain ⟨ev1, rest1⟩ := r1
    cases hs : skipPhase ev1 rest1 with
    | none =>
      rw [parseEntry, hh] at h
      simp only [Option.pure_def, Option.bind_eq_bind, Option.some_bind, hs,
        Option.none_bind] at h
      exact Option.noConfusion h
    | some r2 =>
      obtain ⟨ev2, rest2⟩ := r2
      rw [parseEntry_eq lines ev1 rest1 ev2 rest2 hh hs] at h
      cases h
      constructor
      · exact ⟨_, mapFind?_mapSet_self _ _ _⟩
      · intro ev1' rest1' ev2' rest2' hh' hs' hall
        simp only [Option.some.injEq, Prod.mk.injEq] at hh'
        obtain ⟨he1, hr1⟩ := hh'
        subst he1
        subst hr1
        obtain ⟨he2, hr2⟩ : ev2 = ev2' ∧ rest2 = rest2' := by
          simpa using hs.symm.trans hs'
        subst he2
        subst hr2
        rw [takeWhile_eq_self_of_all _ rest2 (fun x hx => by simp [hall x hx])]
        exact mapFind?_mapSet_self _ _ _

/-- C7 witness: the two-line block `#` / `SELECT 1`. -/
theorem c7_statement_witness :
    mapFind? [(lit "Statement", GoVal.str (lit "SELECT 1"))] (lit "Statement") =
      some (GoVal.str (trimSpace (joinNL [lit "SELECT 1"]))) :=
  (c7_statement [lit "#", lit "SELECT 1"]
      [(lit "Statement", GoVal.str (lit "SELECT 1"))] (by rfl)).2
    [] [lit "SELECT 1"] [] [lit "SELECT 1"] (by rfl) (by rfl) (by decide)

/-- Inserting a correctly-typed recognized attribute preserves event typing. -/
theorem mapSet_welltyped (ev : LogEvent) (k0 : Str) (v0 : GoVal) (τ0 : AttrType)
    (hτ : attributeTypes k0 = some τ0) (hv : valMatchesType τ0 v0 = true)
    (hev : WellTypedEvent ev) : WellTypedEvent (mapSet ev k0 v0) := by
  intro k v hf
  by_cases hk : k = k0
  · subst hk
    rw [mapFind?_mapSet_self] at hf
    cases hf
    exact ⟨τ0, hτ, hv⟩
  · rw [mapFind?_mapSet_of_ne ev k0 k v0 hk] at hf
    exact hev k v hf

/-- One attribute-match step preserves event typing: it stores a key only when
the name is in the table and the value coerces under the declared type. -/
theorem attrStep_welltyped (ev : LogEvent) (m : Str) (ev' : LogEvent)
    (hev : WellTypedEvent ev) (h : attrStep ev m = some ev') :
    WellTypedEvent ev' := by
  simp only [attrStep] at h
  cases hsp : goSplit m (lit ": ") with
  | nil =>
    rw [hsp] at h
    cases h
    exact hev
  | cons p0 ptail =>
    rw [hsp] at h
    dsimp only at h
    cases hat : attributeTypes p0 with
    | none =>
      rw [hat] at h
      cases h
      exact hev
    | some τ =>
      rw [hat] at h
      cases τ with
      | string =>
        dsimp only at h
        cases ptail with
        | nil => cases h
        | cons p1 pt =>
          cases h
          exact mapSet_welltyped ev p0 (GoVal.str p1) AttrType.string hat rfl hev
      | bool =>
        dsimp only at h
        cases ptail with
        | nil => cases h
        | cons p1 pt =>
          dsimp only at h
          cases hpb : parseBoolGo p1 with
          | none => rw [hpb] at h; cases h; exact hev
          | some b =>
            rw [hpb] at h
            cases h
            exact mapSet_welltyped ev p0 (GoVal.bool b) AttrType.bool hat rfl hev
      | float =>
        dsimp only at h
        cases ptail with
        | nil => cases h
        | cons p1 pt =>
          dsimp only at h
          cases hpf : parseFloatGo p1 with
          | none => rw [hpf] at h; cases h; exact hev
          | some f =>
            rw [hpf] at h
            cases h
            exact mapSet_welltyped ev p0 (GoVal.float f) AttrType.float hat rfl hev
      | int =>
        dsimp only at h
        cases ptail with
        | nil => cases h
        | cons p1 pt =>
          dsimp only at h
          cases hpi : parseInt64 p1 with
          | none => rw [hpi] at h; cases h; exact hev
          | some n =>
            rw [hpi] at h
            cases h
            exact mapSet_welltyped ev p0 (GoVal.int n) AttrType.int hat rfl hev

/-- One attribute-match step creates a key only by a successful coercion: any
key of the output event was already present, or is the match's own name with a
value that coerced under its declared table type (so a failed coercion or an
unrecognized name leaves the event unchanged — no key is created). -/
theorem attrStep_key_source (ev : LogEvent) (m : Str) (ev' : LogEvent) (k : Str)
    (h : attrStep ev m = some ev') (hk : mapFind? ev' k ≠ none) :
    mapFind? ev k ≠ none ∨
      ∃ p1 pt, goSplit m (lit ": ") = k :: p1 :: pt ∧ coerceOk k p1 = true := by
  simp only [attrStep] at h
  cases hsp : goSplit m (lit ": ") with
  | nil =>
    rw [hsp] at h
    cases h
    exact Or.inl hk
  | cons p0 ptail =>
    rw [hsp] at h
    dsimp only at h
    cases hat : attributeTypes p0 with
    | none =>
      rw [hat] at h
      cases h
      exact Or.inl hk
    | some τ =>
      rw [hat] at h
      cases τ with
      | string =>
        dsimp only at h
        cases ptail with
        | nil => cases h
        | cons p1 pt =>
          cases h
          by_cases hkp : k = p0
          · subst hkp
            exact Or.inr ⟨p1, pt, rfl, by simp [coerceOk, hat]⟩
          · rw [mapFind?_mapSet_of_ne ev p0 k _ hkp] at hk
            exact Or.inl hk
      | bool =>
        dsimp only at h
        cases ptail with
        | nil => cases h
        | cons p1 pt =>
          dsimp only at h
          cases hpb : parseBoolGo p1 with
          | none => rw [hpb] at h; cases h; exact Or.inl hk
          | some b =>
            rw [hpb] at h
            cases h
            by_cases hkp : k = p0
            · subst hkp
              exact Or.inr ⟨p1, pt, rfl, by simp [coerceOk, hat, hpb]⟩
            · rw [mapFind?_mapSet_of_ne ev p0 k _ hkp] at hk
              exact Or.inl hk
      | float =>
        dsimp only at h
        cases ptail with
        | nil => cases h
        | cons p1 pt =>
          dsimp only at h
          cases hpf : parseFloatGo p1 with
          | none => rw [hpf] at h; cases h; exact Or.inl hk
          | some f =>
            rw [hpf] at h
            cases h
            by_cases hkp : k = p0
            · subst hkp
              exact Or.inr ⟨p1, pt, rfl, by simp [coerceOk, hat, hpf]⟩
            · rw [mapFind?_mapSet_of_ne ev p0 k _ hkp] at hk
              exact Or.inl hk
      | int =>
        dsimp only at h
        cases ptail with
        | nil => cases h
        | cons p1 pt =>
          dsimp only at h
          cases hpi : parseInt64 p1 with
          | none => rw [hpi] at h; cases h; exact Or.inl hk
          | some n =>
            rw [hpi] at h
            cases h
            by_cases hkp : k = p0
            · subst hkp
              exact Or.inr ⟨p1, pt, rfl, by simp [coerceOk, hat, hpi]⟩
            · rw [mapFind?_mapSet_of_ne ev p0 k _ hkp] at hk
              exact Or.inl hk

/-- Lifted over the whole attribute loop: every key of the final event was in
the initial event or stems from a match whose coercion succeeded. -/
theorem foldl_attr_key_source :
    ∀ (ms : List Str) (ev0 ev : LogEvent),
      List.foldlM attrStep ev0 ms = some ev → ∀ k, mapFind? ev k ≠ none →
      mapFind? ev0 k ≠ none ∨
        ∃ m ∈ ms, ∃ p1 pt,
          goSplit m (lit ": ") = k :: p1 :: pt ∧ coerceOk k p1 = true
  | [], ev0, ev, h, k, hk => by
    simp only [List.foldlM] at h
    cases h
    exact Or.inl hk
  | m :: ms, ev0, ev, h, k, hk => by
    simp only [List.foldlM] at h
    cases h1 : attrStep ev0 m with
    | none => rw [h1] at h; cases h
    | some ev1 =>
      rw [h1] at h
      cases foldl_attr_key_source ms ev1 ev h k hk with
      | inl h2 =>
        cases attrStep_key_source ev0 m ev1 k h1 h2 with
        | inl h3 => exact Or.inl h3
        | inr h3 =>
          obtain ⟨p1, pt, hs, hc⟩ := h3
          exact Or.inr ⟨m, List.mem_cons_self _ _, p1, pt, hs, hc⟩
      | inr h2 =>
        obtain ⟨m2, hm2, rest⟩ := h2
        exact Or.inr ⟨m2, List.mem_cons_of_mem _ hm2, rest⟩

/-- C8: after processing the `Name: Value` matches of a header comment line
(starting from the empty event), (1) every key present in the event is a name
of the static attribute-type table and its stored value is of the declared
kind — never a raw-string fallback; and (2) a key is present only if some
matched pair carries that very name and its value coerces under the declared
type — so an unrecognized name, or a value failing its declared coercion,
produces no key at all. -/
theorem c8_attr_typing (line : Str) (ev : LogEvent)
    (h : processAttrLine [] line = some ev) :
    (∀ k v, mapFind? ev k = some v →
      ∃ τ, attributeTypes k = some τ ∧ valMatchesType τ v = true) ∧
    (∀ k, mapFind? ev k ≠ none →
      ∃ m ∈ findAllAttrs line, ∃ p1 pt,
        goSplit m (lit ": ") = k :: p1 :: pt ∧ coerceOk k p1 = true) := by
  constructor
  · intro k v hk
    have hwt : WellTypedEvent ev := by
      refine foldlM_option_inv WellTypedEvent attrStep
        (fun b a b' hb hfb => attrStep_welltyped b a b' hb hfb)
        (findAllAttrs line) [] ev ?_ h
      intro k' v' hf
      cases hf
    exact hwt k v hk
  · intro k hk
    cases foldl_attr_key_source (findAllAttrs line) [] ev h k hk with
    | inl h2 => exact absurd rfl h2
    | inr h2 => exact h2

/-- C8 witness: the line `# Query_time: 0.000123 Rows_examined: 10` stores
`Query_time` as a float recognized by the table, and its presence is justified
by a successfully coercing match. -/
theorem c8_attr_typing_witness :
    (∃ τ, attributeTypes (lit "Query_time") = some τ ∧
      valMatchesType τ
        (GoVal.float (GoFloat.finite ((123 : ℚ) / 1000000))) = true) ∧
    (∃ m ∈ findAllAttrs (lit "# Query_time: 0.000123 Rows_examined: 10"),
      ∃ p1 pt, goSplit m (lit ": ") = lit "Query_time" :: p1 :: pt ∧
        coerceOk (lit "Query_time") p1 = true) :=
  ⟨(c8_attr_typing (lit "# Query_time: 0.000123 Rows_examined: 10")
      [(lit "Query_time", GoVal.float (GoFloat.finite ((123 : ℚ) / 1000000))),
       (lit "Rows_examined", GoVal.int 10)] (by rfl)).1 (lit "Query_time") _
      (by rfl),
   (c8_attr_typing (lit "# Query_time: 0.000123 Rows_examined: 10")
      [(lit "Query_time", GoVal.float (GoFloat.finite ((123 : ℚ) / 1000000))),
       (lit "Rows_examined", GoVal.int 10)] (by rfl)).2 (lit "Query_time")
      (by
        rw [show mapFind?
            [(lit "Query_time", GoVal.float (GoFloat.finite ((123 : ℚ) / 1000000))),
             (lit "Rows_examined", GoVal.int 10)] (lit "Query_time") =
          some (GoVal.float (GoFloat.finite ((123 : ℚ) / 1000000))) from rfl]
        exact Option.some_ne_none _)⟩

/-- Unfold one successful `ConsumeLine` step of `runConsume`. -/
theorem runConsume_cons_some (p : Parser) (l : Str) (ls : List Str) (q : Parser)
    (e : Option LogEvent) (h : p.ConsumeLine l = some (q, e)) :
    runConsume p (l :: ls) =
      (runConsume q ls).bind fun r => some (r.1, e :: r.2) := by
  simp only [runConsume, h, Option.pure_def, Option.bind_eq_bind, Option.some_bind]

/-- A `#` line while not in the query state is buffered and sets `inHeader`. -/
theorem consume_header_step (p : Parser) (l : Str) (hne : l ≠ [])
    (hhash : l.head? = some '#') (hq : p.inQuery = false) :
    p.ConsumeLine l = some (⟨true, false, p.lines ++ [l]⟩, none) := by
  simp [Parser.ConsumeLine, hne, hhash, hq]

/-- The first non-comment line after a header flips the parser to the query
state and is buffered. -/
theorem consume_first_query_step (p : Parser) (l : Str) (hne : l ≠ [])
    (hnq : l.head? ≠ some '#') (hh : p.inHeader = true) :
    p.ConsumeLine l = some (⟨false, true, p.lines ++ [l]⟩, none) := by
  simp [Parser.ConsumeLine, hne, hnq, hh]

/-- A plain line while in the query state is buffered. -/
theorem consume_keep_query_step (p : Parser) (l : Str) (hne : l ≠ [])
    (hnq : l.head? ≠ some '#') (hh : p.inHeader = false) (hq : p.inQuery = true) :
    p.ConsumeLine l = some (⟨false, true, p.lines ++ [l]⟩, none) := by
  simp [Parser.ConsumeLine, hne, hnq, hh, hq]

/-- A blank line while in the query state finalizes the buffered block and
resets the buffer to the blank line. -/
theorem consume_blank_emit_step (p : Parser) (e : LogEvent)
    (hq : p.inQuery = true) (hpe : parseEntry p.lines = some e) :
    p.ConsumeLine [] = some (⟨true, false, [[]]⟩, some e) := by
  simp [Parser.ConsumeLine, hq, hpe]

/-- `runConsume` composes over list concatenation (successful runs). -/
theorem runConsume_append_some (xs : List Str) :
    ∀ (p : Parser) (ys : List Str) (p1 : Parser) (outs1 : List (Option LogEvent))
      (p2 : Parser) (outs2 : List (Option LogEvent)),
      runConsume p xs = some (p1, outs1) →
      runConsume p1 ys = some (p2, outs2) →
      runConsume p (xs ++ ys) = some (p2, outs1 ++ outs2) := by
  induction xs with
  | nil =>
    intro p ys p1 outs1 p2 outs2 h1 h2
    simp only [runConsume, Option.some.injEq, Prod.mk.injEq] at h1
    obtain ⟨hp, ho⟩ := h1
    subst hp
    subst ho
    simpa using h2
  | cons x xs ih =>
    intro p ys p1 outs1 p2 outs2 h1 h2
    cases hc : p.ConsumeLine x with
    | none => simp [runConsume, hc] at h1
    | some r =>
      obtain ⟨q, e⟩ := r
      rw [runConsume_cons_some p x xs q e hc] at h1
      cases hr : runConsume q xs with
      | none => rw [hr] at h1; simp at h1
      | some r2 =>
        obtain ⟨q2, es⟩ := r2
        rw [hr] at h1
        simp only [Option.some_bind, Option.some.injEq, Prod.mk.injEq] at h1
        obtain ⟨hq2, hes⟩ := h1
        subst hq2
        subst hes
        rw [List.cons_append, runConsume_cons_some p x (xs ++ ys) q e hc,
          ih q ys q2 es p2 outs2 hr h2]
        simp

/-- Feeding only non-empty `#` lines while out of the query state buffers them
all, emitting nothing. -/
theorem runConsume_headers (hs : List Str) :
    ∀ (p : Parser) (h : Str), p.inQuery = false →
      (∀ l ∈ h :: hs, l ≠ [] ∧ l.head? = some '#') →
      runConsume p (h :: hs) =
        some (⟨true, false, p.lines ++ (h :: hs)⟩,
          List.replicate (h :: hs).length none) := by
  induction hs with
  | nil =>
    intro p h hq hall
    obtain ⟨hne, hhash⟩ := hall h (List.mem_cons_self h [])
    rw [runConsume_cons_some p h [] _ none (consume_header_step p h hne hhash hq)]
    simp [runConsume]
  | cons h2 hs ih =>
    intro p h hq hall
    obtain ⟨hne, hhash⟩ := hall h (List.mem_cons_self h _)
    rw [runConsume_cons_some p h (h2 :: hs) _ none
      (consume_header_step p h hne hhash hq)]
    rw [ih ⟨true, false, p.lines ++ [h]⟩ h2 rfl
      (fun l hl => hall l (List.mem_cons_of_mem h hl))]
    simp [List.replicate_succ]

/-- Feeding plain lines while in the query state buffers them all, emitting
nothing. -/
theorem runConsume_plain (qs : List Str) :
    ∀ (p : Parser), p.inHeader = false → p.inQuery = true →
      (∀ l ∈ qs, l ≠ [] ∧ l.head? ≠ some '#') →
      runConsume p qs =
        some (⟨false, true, p.lines ++ qs⟩, List.replicate qs.length none) := by
  induction qs with
  | nil =>
    intro p hh hq _
    obtain ⟨ph, pq, pl⟩ := p
    simp only at hh hq
    subst hh
    subst hq
    simp [runConsume]
  | cons q qs ih =>
    intro p hh hq hall
    obtain ⟨hne, hnq⟩ := hall q (List.mem_cons_self q _)
    rw [runConsume_cons_some p q qs _ none
      (consume_keep_query_step p q hne hnq hh hq)]
    rw [ih ⟨false, true, p.lines ++ [q]⟩ rfl rfl
      (fun l hl => hall l (List.mem_cons_of_mem q hl))]
    simp [List.replicate_succ]

/-- From the header state, a plain line followed by further plain lines
buffers them all and moves to the query state, emitting nothing. -/
theorem runConsume_query (q : Str) (qs : List Str) (p : Parser)
    (hh : p.inHeader = true) (hne : q ≠ []) (hnq : q.head? ≠ some '#')
    (hall : ∀ l ∈ qs, l ≠ [] ∧ l.head? ≠ some '#') :
    runConsume p (q :: qs) =
      some (⟨false, true, p.lines ++ (q :: qs)⟩,
        List.replicate (qs.length + 1) none) := by
  rw [runConsume_cons_some p q qs _ none
    (consume_first_query_step p q hne hnq hh)]
  rw [runConsume_plain qs ⟨false, true, p.lines ++ [q]⟩ rfl rfl hall]
  simp [List.replicate_succ]

/-- C4: feeding two blocks (non-empty header lines, then non-empty plain
statement lines) separated by a single blank line emits the first event
exactly on the call consuming the blank line (every other call emits nothing),
and the second block's event is produced only by the final `Flush`. -/
theorem c4_two_blocks (h1 q1 h2 q2 : List Str) (e1 e2 : LogEvent)
    (hh1 : ∀ l ∈ h1, l ≠ [] ∧ l.head? = some '#') (hn1 : h1 ≠ [])
    (hq1 : ∀ l ∈ q1, l ≠ [] ∧ l.head? ≠ some '#') (hn2 : q1 ≠ [])
    (hh2 : ∀ l ∈ h2, l ≠ [] ∧ l.head? = some '#') (hn3 : h2 ≠ [])
    (hq2 : ∀ l ∈ q2, l ≠ [] ∧ l.head? ≠ some '#') (hn4 : q2 ≠ [])
    (hp1 : parseEntry (h1 ++ q1) = some e1)
    (hp2 : parseEntry ([] :: (h2 ++ q2)) = some e2) :
    runConsume initialParser (h1 ++ q1 ++ [[]] ++ h2 ++ q2) =
      some (⟨false, true, [] :: (h2 ++ q2)⟩,
        List.replicate (h1.length + q1.length) none ++
          some e1 :: List.replicate (h2.length + q2.length) none) ∧
    Parser.Flush ⟨false, true, [] :: (h2 ++ q2)⟩ =
      some (⟨false, true, []⟩, some e2) := by
  obtain ⟨a1, t1, rfl⟩ := List.exists_cons_of_ne_nil hn1
  obtain ⟨b1, u1, rfl⟩ := List.exists_cons_of_ne_nil hn2
  obtain ⟨a2, t2, rfl⟩ := List.exists_cons_of_ne_nil hn3
  obtain ⟨b2, u2, rfl⟩ := List.exists_cons_of_ne_nil hn4
  have s1 : runConsume initialParser (a1 :: t1) =
      some (⟨true, false, a1 :: t1⟩, List.replicate (a1 :: t1).length none) := by
    simpa [initialParser] using runConsume_headers t1 initialParser a1 rfl hh1
  have s2 : runConsume ⟨true, false, a1 :: t1⟩ (b1 :: u1) =
      some (⟨false, true, (a1 :: t1) ++ (b1 :: u1)⟩,
        List.replicate (u1.length + 1) none) := by
    have hb := hq1 b1 (List.mem_cons_self _ _)
    simpa using runConsume_query b1 u1 ⟨true, false, a1 :: t1⟩ rfl hb.1 hb.2
      (fun l hl => hq1 l (List.mem_cons_of_mem _ hl))
  have s12 := runConsume_append_some (a1 :: t1) initialParser (b1 :: u1)
    _ _ _ _ s1 s2
  have s3 : runConsume ⟨false, true, (a1 :: t1) ++ (b1 :: u1)⟩ [[]] =
      some (⟨true, false, [[]]⟩, [some e1]) := by
    rw [runConsume_cons_some _ [] [] ⟨true, false, [[]]⟩ (some e1)
      (consume_blank_emit_step _ e1 rfl hp1)]
    simp [runConsume]
  have s123 := runConsume_append_some _ _ [[]] _ _ _ _ s12 s3
  have s4 : runConsume ⟨true, false, [[]]⟩ (a2 :: t2) =
      some (⟨true, false, [] :: (a2 :: t2)⟩,
        List.replicate (a2 :: t2).length none) := by
    simpa using runConsume_headers t2 ⟨true, false, [[]]⟩ a2 rfl hh2
  have s1234 := runConsume_append_some _ _ (a2 :: t2) _ _ _ _ s123 s4
  have s5 : runConsume ⟨true, false, [] :: (a2 :: t2)⟩ (b2 :: u2) =
      some (⟨false, true, [] :: ((a2 :: t2) ++ (b2 :: u2))⟩,
        List.replicate (u2.length + 1) none) := by
    have hb := hq2 b2 (List.mem_cons_self _ _)
    simpa using runConsume_query b2 u2 ⟨true, false, [] :: (a2 :: t2)⟩ rfl
      hb.1 hb.2 (fun l hl => hq2 l (List.mem_cons_of_mem _ hl))
  have sall := runConsume_append_some _ _ (b2 :: u2) _ _ _ _ s1234 s5
  constructor
  · rw [sall]
    simp [List.replicate_add, List.append_assoc, List.replicate_succ]
  · simp only [List.cons_append] at hp2
    simp [Parser.Flush, hp2]


/-- C4 witness: the minimal two-block log `#` / `a` / blank / `#` / `b`. -/
theorem c4_two_blocks_witness :
    runConsume initialParser ([['#']] ++ [['a']] ++ [[]] ++ [['#']] ++ [['b']]) =
      some (⟨false, true, [] :: ([['#']] ++ [['b']])⟩,
        List.replicate ([['#']].length + [['a']].length) none ++
          some [(lit "Statement", GoVal.str ['a'])] ::
            List.replicate ([['#']].length + [['b']].length) none) ∧
    Parser.Flush ⟨false, true, [] :: ([['#']] ++ [['b']])⟩ =
      some (⟨false, true, []⟩, some [(lit "Statement", GoVal.str ['b'])]) :=
  c4_two_blocks [['#']] [['a']] [['#']] [['b']]
    [(lit "Statement", GoVal.str ['a'])] [(lit "Statement", GoVal.str ['b'])]
    (by decide) (by decide) (by decide) (by decide) (by decide) (by decide)
    (by decide) (by decide) (by rfl) (by rfl)

/-- `splitAux` over a single-rune separator that does not occur: one field. -/
theorem splitAux_no_occ (c : Char) (l : Str) :
    ∀ (acc : Str) (fuel : Nat), l.length ≤ fuel → c ∉ l →
      splitAux [c] fuel l acc = [acc.reverse ++ l] := by
  induction l with
  | nil =>
    intro acc fuel _ _
    cases fuel <;> simp [splitAux]
  | cons a t ih =>
    intro acc fuel hfuel hc
    cases fuel with
    | zero => simp at hfuel
    | succ f =>
      have hca : ([c].isPrefixOf (a :: t)) = false := by
        simp only [List.isPrefixOf, List.isPrefixOf_nil_left, Bool.and_true]
        simp only [List.mem_cons, not_or] at hc
        simp [hc.1]
      simp only [splitAux, hca, Bool.false_eq_true, if_false]
      rw [ih (a :: acc) f (by simpa using Nat.succ_le_succ_iff.mp hfuel)
        (fun hm => hc (List.mem_cons_of_mem a hm))]
      simp

/-- `splitAux` over a single-rune separator occurring exactly once. -/
theorem splitAux_first_occ (c : Char) (pre : Str) :
    ∀ (post acc : Str) (fuel : Nat), (pre ++ c :: post).length ≤ fuel →
      c ∉ pre → c ∉ post →
      splitAux [c] fuel (pre ++ c :: post) acc = [acc.reverse ++ pre, post] := by
  induction pre with
  | nil =>
    intro post acc fuel hfuel _ hpost
    cases fuel with
    | zero => simp at hfuel
    | succ f =>
      have hcc : ([c].isPrefixOf (c :: post)) = true := by
        simp [List.isPrefixOf]
      simp only [List.nil_append, splitAux, hcc, if_true, List.length_singleton,
        Nat.sub_self, List.drop_zero]
      rw [splitAux_no_occ c post [] f (by simpa using Nat.succ_le_succ_iff.mp hfuel) hpost]
      simp
  | cons a t ih =>
    intro post acc fuel hfuel hpre hpost
    cases fuel with
    | zero => simp at hfuel
    | succ f =>
      simp only [List.mem_cons, not_or] at hpre
      have hca : ([c].isPrefixOf (a :: (t ++ c :: post))) = false := by
        simp only [List.isPrefixOf, List.isPrefixOf_nil_left, Bool.and_true]
        simp [hpre.1]
      simp only [List.cons_append, splitAux, List.append_eq, hca,
        Bool.false_eq_true, if_false]
      rw [ih post (a :: acc) f (by simpa using Nat.succ_le_succ_iff.mp hfuel)
        (fun hm => hpre.2 hm) hpost]
      simp

/-- `strings.Split` around the unique occurrence of a one-rune separator. -/
theorem goSplit_single (c : Char) (pre post : Str) (hpre : c ∉ pre)
    (hpost : c ∉ post) : goSplit (pre ++ c :: post) [c] = [pre, post] := by
  unfold goSplit
  rw [if_neg (by simp : ¬ ([c] : Str) = [])]
  rw [splitAux_first_occ c pre post [] (pre ++ c :: post).length le_rfl hpre hpost]
  simp

/-- `strings.TrimRight (v + ";") ";\n"` gives back `v` when `v` does not end
in one of the cut runes. -/
theorem trimRightCut_append_semi (v : Str)
    (hlast : ∀ c, v.getLast? = some c → c ≠ ';' ∧ c ≠ '\n') :
    trimRightCut (v ++ [';']) (lit ";\n") = v := by
  unfold trimRightCut
  rw [List.reverse_append]
  simp only [List.reverse_singleton, List.singleton_append]
  rw [List.dropWhile_cons_of_pos (by decide)]
  rw [dropWhile_eq_self_of_head? _ v.reverse (fun c hc => by
    have := hlast c (by rwa [← List.head?_reverse])
    simp [lit, this.1, this.2])]
  exact List.reverse_reverse v

/-- The context phase on a `SET timestamp=<v>;` line (for `v` without `=` and
not ending in `;` or a newline): the raw value is recorded as `Timestamp` and,
when it parses as a base-10 int64, overwritten with the formatted calendar
representation. -/
theorem skipPhase_set_ts (ev : LogEvent) (v : Str) (rest : List Str)
    (hv : '=' ∉ v) (hlast : ∀ c, v.getLast? = some c → c ≠ ';' ∧ c ≠ '\n') :
    skipPhase ev ((lit "SET timestamp=" ++ v ++ [';']) :: rest) =
      skipPhase (match parseInt64 v with
        | some n => mapSet (mapSet ev (lit "Timestamp") (GoVal.str v))
            (lit "Timestamp") (GoVal.str (formatEpoch n))
        | none => mapSet ev (lit "Timestamp") (GoVal.str v)) rest := by
  have hsplit : goSplit (lit "SET timestamp=" ++ v ++ [';']) ['='] =
      [lit "SET timestamp", v ++ [';']] := by
    have h0 : lit "SET timestamp=" ++ v ++ [';'] =
        lit "SET timestamp" ++ '=' :: (v ++ [';']) := by
      have h1 : lit "SET timestamp=" = lit "SET timestamp" ++ ['='] := by decide
      rw [h1]
      simp
    rw [h0]
    exact goSplit_single '=' (lit "SET timestamp") (v ++ [';']) (by decide)
      (by simp [List.mem_append, hv])
  have hp3 : ((lit "SET timestamp=").isPrefixOf
      (lit "SET timestamp=" ++ v ++ [';'])) = true := by
    rw [List.isPrefixOf_iff_prefix]
    exact ⟨v ++ [';'], by simp⟩
  simp only [skipPhase,
    show ((lit "use ").isPrefixOf (lit "SET timestamp=" ++ v ++ [';'])) = false
      from rfl,
    show ((lit "SET ").isPrefixOf (lit "SET timestamp=" ++ v ++ [';'])) = true
      from rfl,
    hp3, Bool.false_eq_true, if_false, if_true, hsplit, List.get?]
  rw [trimRightCut_append_semi v hlast]

/-- The context phase stops at a `SELECT` line. -/
theorem skipPhase_stop_select (e : LogEvent) :
    skipPhase e [lit "SELECT 1"] = some (e, [lit "SELECT 1"]) := rfl

/-- C6: in a block whose context line is `SET timestamp=<v>;` (`v` free of `=`
and not ending in `;` or a newline), the event's `Timestamp` key is set: to
the epoch formatted `YYYY-MM-DD HH:MM:SS` when `v` parses as a base-10 64-bit
integer, and to the raw value string verbatim otherwise. -/
theorem c6_timestamp (v : Str) (hv : '=' ∉ v)
    (hlast : ∀ c, v.getLast? = some c → c ≠ ';' ∧ c ≠ '\n') :
    ∃ ev, parseEntry [lit "# Query_time: 0.5",
        lit "SET timestamp=" ++ v ++ [';'], lit "SELECT 1"] = some ev ∧
      mapFind? ev (lit "Timestamp") = some (GoVal.str
        (match parseInt64 v with
          | some n => formatEpoch n
          | none => v)) := by
  have hhdr : headerPhase [] [lit "# Query_time: 0.5",
      lit "SET timestamp=" ++ v ++ [';'], lit "SELECT 1"] =
      some ([(lit "Query_time", GoVal.float (GoFloat.finite ((5 : ℚ) / 10)))],
        [lit "SET timestamp=" ++ v ++ [';'], lit "SELECT 1"]) := rfl
  have hskip := skipPhase_set_ts
    [(lit "Query_time", GoVal.float (GoFloat.finite ((5 : ℚ) / 10)))] v
    [lit "SELECT 1"] hv hlast
  have hs2 := hskip.trans (skipPhase_stop_select _)
  refine ⟨_, parseEntry_eq _ _ _ _ _ hhdr hs2, ?_⟩
  rw [mapFind?_mapSet_of_ne _ _ _ _
    (by decide : (lit "Timestamp") ≠ (lit "Statement"))]
  cases hpi : parseInt64 v with
  | some n =>
    simp only [hpi]
    rw [mapFind?_mapSet_self]
  | none =>
    simp only [hpi]
    rw [mapFind?_mapSet_self]

/-- C6 witness: `SET timestamp=1609459200;` formats to `2021-01-01 00:00:00`
(the spec's round-trip example). -/
theorem c6_timestamp_witness :
    ∃ ev, parseEntry [lit "# Query_time: 0.5",
        lit "SET timestamp=" ++ lit "1609459200" ++ [';'], lit "SELECT 1"] =
          some ev ∧
      mapFind? ev (lit "Timestamp") =
        some (GoVal.str (lit "2021-01-01 00:00:00")) :=
  c6_timestamp (lit "1609459200") (by decide) (by decide)
